import Mathlib

/-!
Shallow embedding of the pattern-scanning / memory-patching core of
TrailsInTheSkyFCFix (src/src/utils.cpp, src/inc/utils.hpp, src/src/dllmain.cpp).

Memory is modelled as a total function `Nat → Nat` giving the byte stored at
each absolute address; the module image starts at `base` and the PE header's
reported `SizeOfImage` is passed in as a plain number (the PE-header walk at
the top of `patternScan` is abstracted into this parameter).  Machine
integers are modelled as `Nat` with explicit reductions (`% 2 ^ 64` for the
`u64`/`size_t` subtraction in the scan loop bound, `% 2 ^ 32` bounds for
32-bit `unsigned long`/`u32` parses, `% 256` for the `static_cast<u8>`
truncations) exactly where the C++ performs unsigned arithmetic.
-/

namespace TrailsFCFix

/-- Byte value of one hexadecimal digit character; `none` for a non-digit. -/
def hexDigit (c : Char) : Option Nat :=
  if '0' ≤ c ∧ c ≤ '9' then some (c.toNat - '0'.toNat)
  else if 'a' ≤ c ∧ c ≤ 'f' then some (c.toNat - 'a'.toNat + 10)
  else if 'A' ≤ c ∧ c ≤ 'F' then some (c.toNat - 'A'.toNat + 10)
  else none

/-- Whitespace test of `operator>>(istream, string)` extraction (default
locale `isspace`): space, tab, newline, vertical tab, form feed, return. -/
def isSpace (c : Char) : Bool :=
  c = ' ' || c = '\t' || c = '\n' || c = '\x0b' || c = '\x0c' || c = '\r'

/-- Auxiliary tokenizer state machine: `cur` is the (reversed) token being
accumulated.  Models the `while (stream >> byteStr)` loops of
`Utils::patch` and `Utils::patternScan`, which split the input on runs of
whitespace and yield the maximal non-whitespace runs in order. -/
def tokenizeAux : List Char → List Char → List (List Char)
  | [], cur => if cur = [] then [] else [cur.reverse]
  | c :: rest, cur =>
    if isSpace c then
      if cur = [] then tokenizeAux rest []
      else cur.reverse :: tokenizeAux rest []
    else tokenizeAux rest (c :: cur)

/-- Whitespace tokenization of a pattern string, as performed by the
`stream >> byteStr` extraction loops in utils.cpp. -/
def tokenize (s : List Char) : List (List Char) := tokenizeAux s []

/-- Value of the maximal leading run of hex digits of a token, folded
left-to-right in base 16 on top of the accumulator `acc`. -/
def hexValAux : List Char → Nat → Nat
  | [], acc => acc
  | c :: rest, acc =>
    match hexDigit c with
    | some d => hexValAux rest (acc * 16 + d)
    | none => acc

/-- Base-16 parse of the maximal leading hex-digit run of a token;
`none` when the token does not start with a hex digit.  (The `0x` prefix
and sign forms accepted by the C library parsers never occur in this
program's pattern strings and are not modelled.) -/
def leadingHexVal : List Char → Option Nat
  | [] => none
  | c :: rest =>
    match hexDigit c with
    | some d => some (hexValAux rest d)
    | none => none

/-- Models `std::stringstream(byteStr) >> std::hex >> byte` into a `u32`
(`Utils::patternScan`'s token parser): extraction failure stores 0,
overflow stores the maximal representable value `2 ^ 32 - 1` (C++11
`num_get` semantics); no exception is ever thrown. -/
def parseHexU32 (tok : List Char) : Nat :=
  match leadingHexVal tok with
  | none => 0
  | some v => if v < 2 ^ 32 then v else 2 ^ 32 - 1

/-- Models `std::stoul(byteStr, nullptr, 16)` (`Utils::patch`'s token
parser) on Windows, where `unsigned long` is 32 bits: `none` models a
thrown exception — `std::invalid_argument` when no hex digit can be
consumed, `std::out_of_range` when the parsed value exceeds the 32-bit
unsigned range. -/
def stoulHex (tok : List Char) : Option Nat :=
  match leadingHexVal tok with
  | none => none
  | some v => if v < 2 ^ 32 then some v else none

/-- The literal wildcard token `??`. -/
def wildcardTok : List Char := ['?', '?']

/-- The `patternToByte` lambda inside `Utils::patternScan`: each token
`??` becomes the wildcard marker byte `0xFF`; any other token is parsed
as hex (failure yielding 0) and truncated by `static_cast<u8>`. -/
def patternToByte (pattern : List Char) : List Nat :=
  (tokenize pattern).map (fun t => if t = wildcardTok then 0xFF else parseHexU32 t % 256)

/-- Unsigned 64-bit subtraction: both operands of
`sizeOfImage - patternSize` in `Utils::patternScan` are converted to
`u64` (`patternSize` is declared `u64`), so the difference wraps modulo
`2 ^ 64`.  Faithful for `b ≤ 2 ^ 64`, which holds for every pattern
length. -/
def usub64 (a b : Nat) : Nat := (a + (2 ^ 64 - b % 2 ^ 64)) % 2 ^ 64

/-- The per-offset comparison of `Utils::patternScan`:
`std::equal(patternBytes, ..., [](u8 p, u8 s){ return p == 0xFF || p == s; })`.
A pattern byte equal to `0xFF` (the wildcard marker) matches any image
byte; any other pattern byte must equal the image byte. -/
def matchAt (mem : Nat → Nat) : List Nat → Nat → Bool
  | [], _ => true
  | b :: rest, addr => (b == 255 || mem addr == b) && matchAt mem rest (addr + 1)

/-- The vector-collecting `Utils::patternScan` of utils.cpp: parses the
signature, computes the loop bound `sizeOfImage - patternSize` in
unsigned 64-bit arithmetic, and for each candidate offset
`i = 0, 1, ..., bound` pushes the absolute address `base + i` onto the
caller's `addresses` vector when the pattern matches there.  (The loop
index `i` is modelled as an unbounded natural; on a 32-bit build the
`size_t` index additionally wraps, which only makes the underflow
behaviour worse — see the claim C2 analysis.) -/
def patternScan (mem : Nat → Nat) (base sizeOfImage : Nat) (signature : List Char)
    (addresses : List Nat) : List Nat :=
  let patternBytes := patternToByte signature
  let bound := usub64 sizeOfImage patternBytes.length
  (List.range (bound + 1)).foldl
    (fun acc i => if matchAt mem patternBytes (base + i) then acc ++ [base + i] else acc)
    addresses

/-- Uppercase hexadecimal digit character for a value below 16, as
produced by the `X` format conversion. -/
def hexDigitChar (n : Nat) : Char :=
  if n < 10 then Char.ofNat ('0'.toNat + n) else Char.ofNat ('A'.toNat + n - 10)

/-- The `std::format("\x7b:02X\x7d", byte)` conversion of one `u8`: exactly two
uppercase hex digits (the argument is a byte, so it is below 256). -/
def hex2 (b : Nat) : List Char := [hexDigitChar (b / 16), hexDigitChar (b % 16)]

/-- `Utils::bytesToString`: append `"XX "` per byte in memory order, then
`pop_back` the trailing space when the result is nonempty. -/
def bytesToString (bytes : List Nat) : List Char :=
  let pattern := bytes.foldl (fun acc b => acc ++ hex2 b ++ [' ']) ([] : List Char)
  if pattern = [] then pattern else pattern.dropLast

/-- The `PAGE_EXECUTE_READWRITE` protection constant (0x40). -/
def PAGE_EXECUTE_READWRITE : Nat := 0x40

/-- Byte-addressed memory together with a per-address protection value
(the granularity of `VirtualProtect` is abstracted to single addresses;
only the values and the touched range matter for the claims). -/
structure MemProt where
  mem : Nat → Nat
  prot : Nat → Nat

/-- Environment oracle deciding whether a `VirtualProtect` call on a
given address/size succeeds. -/
structure OSEnv where
  vpOk : Nat → Nat → Bool

/-- `memcpy(address, bytes.data(), bytes.size())` on the byte memory. -/
def writeBytes (m : Nat → Nat) (addr : Nat) (bytes : List Nat) : Nat → Nat :=
  fun a => if addr ≤ a ∧ a < addr + bytes.length then bytes.getD (a - addr) 0 else m a

/-- Set the protection of every address in `[addr, addr + size)`. -/
def setProt (p : Nat → Nat) (addr size newProt : Nat) : Nat → Nat :=
  fun a => if addr ≤ a ∧ a < addr + size then newProt else p a

/-- Model of `VirtualProtect(addr, size, newProt, &old)`: on success it
returns `true`, stores the previous protection of the first address into
`old` and sets the range's protection; on failure it returns `false` and
leaves both the state and the `old` out-variable (whose prior content is
`oldVar`) untouched. -/
def virtualProtect (os : OSEnv) (s : MemProt) (addr size newProt oldVar : Nat) :
    Bool × Nat × MemProt :=
  if os.vpOk addr size then
    (true, s.prot addr, ⟨s.mem, setProt s.prot addr size newProt⟩)
  else
    (false, oldVar, s)

/-- The token loop of the `patternToByte` lambda inside `Utils::patch`:
`bytes.push_back(static_cast<u8>(std::stoul(byteStr, nullptr, 16)))` for
each token in order; a throwing `std::stoul` aborts the whole call
(modelled as `none`). -/
def patchBytesAux : List (List Char) → Option (List Nat)
  | [] => some []
  | t :: rest =>
    match stoulHex t with
    | none => none
    | some v =>
      match patchBytesAux rest with
      | none => none
      | some bs => some (v % 256 :: bs)

/-- Token-to-byte conversion of `Utils::patch`: tokenize on whitespace,
parse each token with `std::stoul(..., 16)` and truncate to `u8`. -/
def patchBytes (pattern : List Char) : Option (List Nat) :=
  patchBytesAux (tokenize pattern)

/-- `Utils::patch(address, pattern)`: convert the pattern to bytes, call
`VirtualProtect(address, len, PAGE_EXECUTE_READWRITE, &oldProtect)`
WITHOUT checking its result, `memcpy` the bytes over
`[address, address + len)`, then call
`VirtualProtect(address, len, oldProtect, &oldProtect)` — again without
checking the result.  `uninitOldProtect` models the indeterminate value
of the uninitialized local `DWORD oldProtect` that the restore call
reads when the first protection change failed.  `none` models the
exception escaping from `std::stoul` on a malformed token. -/
def patch (os : OSEnv) (s : MemProt) (address : Nat) (pattern : List Char)
    (uninitOldProtect : Nat) : Option MemProt :=
  match patchBytes pattern with
  | none => none
  | some patternBytes =>
    let r1 := virtualProtect os s address patternBytes.length PAGE_EXECUTE_READWRITE
      uninitOldProtect
    let oldProtect := r1.2.1
    let s1 := r1.2.2
    let s2 : MemProt := ⟨writeBytes s1.mem address patternBytes, s1.prot⟩
    let r2 := virtualProtect os s2 address patternBytes.length oldProtect oldProtect
    some r2.2.2

/-- `Utils::ModuleInfo` (utils.hpp): base address, display name, variant
id of the process image. -/
structure ModuleInfo where
  address : Nat
  name : List Char
  id : Nat

/-- `Utils::SignatureHook` (utils.hpp): the pattern text and the byte
offset added to the match address before hooking. -/
structure SignatureHook where
  signature : List Char
  offset : Nat

/-- Observable outcome of one `Utils::injectHook` call: whether the
pattern scan was entered at all, the absolute address a mid-hook was
installed at (if any), and the module-base-relative match offset that
was logged in the `Found` line (if any). -/
structure HookOutcome where
  scanPerformed : Bool
  installedAt : Option Nat
  foundRelLogged : Option Nat
deriving DecidableEq

/-- Modelled from the spec: the per-token rule of `decode(pattern_text)`
(§4.1 ByteCodec).  A token of exactly `??` is a wildcard; any other
token must be a valid 2-digit hex byte; anything else is
`MalformedPatternError` (`none`). -/
def specDecodeTok (t : List Char) : Option (Option Nat) :=
  if t = wildcardTok then some none
  else
    match t with
    | [c1, c2] =>
      match hexDigit c1, hexDigit c2 with
      | some a, some b => some (some (a * 16 + b))
      | _, _ => none
    | _ => none

/-- Modelled from the spec: `decode(pattern_text) -> Pattern` (§4.1),
needed because the scalar `uintptr_t Utils::patternScan` that
`injectHook` calls is declared in utils.hpp but its definition is not
under src/.  Tokenizes on whitespace; fails (`none`) when some
non-wildcard token is not a valid 2-digit hex byte or when the text is
empty. -/
def specDecode (text : List Char) : Option (List (Option Nat)) :=
  if tokenize text = [] then none
  else (tokenize text).mapM specDecodeTok

/-- Modelled from the spec: the matching rule of `scanFirst` (§4.2) —
"at each candidate offset testing whether every non-wildcard pattern
token equals the corresponding image byte". -/
def specTokMatchAt (mem : Nat → Nat) : List (Option Nat) → Nat → Bool
  | [], _ => true
  | none :: rest, addr => specTokMatchAt mem rest (addr + 1)
  | some b :: rest, addr => mem addr == b && specTokMatchAt mem rest (addr + 1)

/-- Modelled from the spec: the missing scalar
`uintptr_t Utils::patternScan(void*, std::string&)` used by
`injectHook`, i.e. `scanFirst(base_address, pattern)` of §4.2: scan
offsets 0 to `imageSize - pattern.length`, return the first
(lowest-address) matching offset's absolute address, or 0 (`NotFound`,
"zero represents not found", §3) when no offset matches; a pattern
longer than the image yields the empty result (§4.2 edge case). -/
def scanFirst (mem : Nat → Nat) (base imgSize : Nat) (pat : List (Option Nat)) : Nat :=
  if pat.length ≤ imgSize then
    match (List.range (imgSize - pat.length + 1)).find?
        (fun o => specTokMatchAt mem pat (base + o)) with
    | some o => base + o
    | none => 0
  else 0

/-- `Utils::injectHook` (utils.hpp): log the enable state; when enabled,
scan for the signature; on a hit install a mid-hook at
`absAddr + hook.offset` and log the module-base-relative offset
(`hit - module.address`, a `u64` subtraction); on a miss only log.  The
scalar scan it calls is `scanFirst` (modelled from the spec, see above);
a `MalformedPatternError` from decoding is treated as "not found" per
§7's propagation policy. -/
def injectHook (enable : Bool) (module : ModuleInfo) (hook : SignatureHook)
    (mem : Nat → Nat) (imgSize : Nat) : HookOutcome :=
  if enable then
    let hit := match specDecode hook.signature with
      | some pat => scanFirst mem module.address imgSize pat
      | none => 0
    if hit ≠ 0 then
      { scanPerformed := true
        installedAt := some (hit + hook.offset)
        foundRelLogged := some (usub64 hit module.address) }
    else
      { scanPerformed := true, installedAt := none, foundRelLogged := none }
  else
    { scanPerformed := false, installedAt := none, foundRelLogged := none }

/-- The `textures` block of the YAML configuration (dllmain.cpp). -/
structure TexturesT where
  enable : Bool

/-- The `tileRenderDistance` block of the YAML configuration. -/
structure TileRenderDistanceT where
  enable : Bool

/-- The `fixes` block of the YAML configuration. -/
structure FixT where
  textures : TexturesT
  tileRenderDistance : TileRenderDistanceT

/-- The configuration values read by `readYml` that gate the fixes (the
camera feature's float zoom only affects the hook callback body, which
is not modelled). -/
structure YmlT where
  masterEnable : Bool
  fix : FixT

/-- Signature of the aspect-ratio fix (`forceKeepAspect`, dllmain.cpp). -/
def aspectSig : List Char :=
  "76 ?? F2 0F 5E C8 F2 0F 11 0D ?? ?? ?? ?? 80 3D ?? ?? ?? ?? 00 75 ??".toList

/-- Signature of the textures fix (`texturesFix`, dllmain.cpp). -/
def texturesSig : List Char :=
  "66 0F 2F C1 76 ?? A1 ?? ?? ?? ?? 66 0F 6E 05 ?? ?? ?? ??".toList

/-- Signature of the render-distance fix (`tileRenderFix`, dllmain.cpp). -/
def tileRenderSig : List Char :=
  "F3 0F 11 4C 24 04    F3 0F 11 04 24    51    FF D6".toList

/-- `forceKeepAspect` (dllmain.cpp): hook offset 0x15, enabled by
`yml.masterEnable` alone. -/
def forceKeepAspect (yml : YmlT) (module : ModuleInfo) (mem : Nat → Nat)
    (imgSize : Nat) : HookOutcome :=
  injectHook yml.masterEnable module ⟨aspectSig, 0x15⟩ mem imgSize

/-- `texturesFix` (dllmain.cpp): enabled by
`yml.masterEnable & yml.fix.textures.enable` (bitwise AND of bools,
i.e. conjunction). -/
def texturesFix (yml : YmlT) (module : ModuleInfo) (mem : Nat → Nat)
    (imgSize : Nat) : HookOutcome :=
  injectHook (yml.masterEnable && yml.fix.textures.enable) module
    ⟨texturesSig, 0⟩ mem imgSize

/-- `tileRenderFix` (dllmain.cpp): enabled by
`yml.masterEnable & yml.fix.tileRenderDistance.enable`. -/
def tileRenderFix (yml : YmlT) (module : ModuleInfo) (mem : Nat → Nat)
    (imgSize : Nat) : HookOutcome :=
  injectHook (yml.masterEnable && yml.fix.tileRenderDistance.enable) module
    ⟨tileRenderSig, 0⟩ mem imgSize

/-- The fix-application sequence of `Main` (dllmain.cpp), which after
`logInit()` and `readYml()` (logging and configuration I/O, represented
by the `yml` parameter) calls `forceKeepAspect(); texturesFix();
tileRenderFix();` in that textual order on the single worker thread.
Each entry is tagged 0/1/2 with the fix's position in the source. -/
def mainTrace (yml : YmlT) (module : ModuleInfo) (mem : Nat → Nat)
    (imgSize : Nat) : List (Nat × HookOutcome) :=
  [(0, forceKeepAspect yml module mem imgSize),
   (1, texturesFix yml module mem imgSize),
   (2, tileRenderFix yml module mem imgSize)]

/-- Spec-side matching rule for the amended claim C1: position `i`
matches when the pattern byte is the wildcard marker 255 (which the
tokenizer produces both for `??` and for a literal `FF` token) or equals
the image byte. -/
def specMatchProp (mem : Nat → Nat) (pat : List Nat) (addr : Nat) : Prop :=
  ∀ i : Fin pat.length, pat.get i = 255 ∨ mem (addr + i.val) = pat.get i

instance specMatchPropDecidable (mem : Nat → Nat) (pat : List Nat) (addr : Nat) :
    Decidable (specMatchProp mem pat addr) := by
  unfold specMatchProp; exact inferInstance

/-- Spec-side description of the scan result (amended claim C1): the
absolute addresses of exactly the offsets `o` in `[0, N − L]` at which
the pattern matches, in ascending order. -/
def scanAllSpec (mem : Nat → Nat) (base N : Nat) (pat : List Nat) : List Nat :=
  ((List.range (N - pat.length + 1)).filter
    (fun o => decide (specMatchProp mem pat (base + o)))).map (fun o => base + o)

/-- Spec-side description of `bytesToString`'s output shape (claim C5):
the tokens joined by single spaces with no trailing separator. -/
def sepJoin : List (List Char) → List Char
  | [] => []
  | [t] => t
  | t :: rest => t ++ ' ' :: sepJoin rest

/-- Concrete environment in which every `VirtualProtect` call fails
(e.g. the target page is not mapped). -/
def vpAlwaysFail : OSEnv := ⟨fun _ _ => false⟩

/-- Concrete environment in which every `VirtualProtect` call succeeds. -/
def vpAlwaysOk : OSEnv := ⟨fun _ _ => true⟩

/-- Concrete initial state: all memory bytes 0, all protections 7. -/
def st0 : MemProt := ⟨fun _ => 0, fun _ => 7⟩

/-! ## Helper lemmas -/

theorem foldl_push_filter {α β : Type} (p : α → Bool) (f : α → β) :
    ∀ (l : List α) (acc : List β),
      l.foldl (fun acc i => if p i then acc ++ [f i] else acc) acc
        = acc ++ (l.filter p).map f
  | [], acc => by simp
  | a :: l, acc => by
    by_cases h : p a <;>
      simp [h, List.foldl_cons, foldl_push_filter p f l, List.append_assoc]

theorem patternScan_eq (mem : Nat → Nat) (base N : Nat) (sig : List Char)
    (prior : List Nat) :
    patternScan mem base N sig prior
      = prior ++ ((List.range (usub64 N (patternToByte sig).length + 1)).filter
          (fun i => matchAt mem (patternToByte sig) (base + i))).map
          (fun i => base + i) := by
  unfold patternScan
  exact foldl_push_filter _ _ _ _

theorem specMatchProp_nil (mem : Nat → Nat) (addr : Nat) :
    specMatchProp mem [] addr :=
  fun i => i.elim0

theorem specMatchProp_cons (mem : Nat → Nat) (b : Nat) (rest : List Nat) (addr : Nat) :
    specMatchProp mem (b :: rest) addr
      ↔ (b = 255 ∨ mem addr = b) ∧ specMatchProp mem rest (addr + 1) := by
  constructor
  · intro h
    refine ⟨?_, ?_⟩
    · have h0 := h ⟨0, Nat.succ_pos _⟩
      simpa using h0
    · intro i
      have hs := h i.succ
      have harith : addr + (i.val + 1) = addr + 1 + i.val := by omega
      simpa [harith] using hs
  · rintro ⟨h0, hrest⟩ i
    refine Fin.cases ?_ ?_ i
    · simpa using h0
    · intro j
      have hj := hrest j
      have harith : addr + 1 + j.val = addr + (j.val + 1) := by omega
      simpa [harith] using hj

theorem matchAt_iff (mem : Nat → Nat) :
    ∀ (pat : List Nat) (addr : Nat),
      matchAt mem pat addr = true ↔ specMatchProp mem pat addr
  | [], addr => by
    exact iff_of_true rfl (specMatchProp_nil mem addr)
  | b :: rest, addr => by
    rw [specMatchProp_cons, ← matchAt_iff mem rest (addr + 1)]
    simp [matchAt]

theorem usub64_eq_sub (N L : Nat) (hL : L ≤ N) (hN : N < 2 ^ 64) :
    usub64 N L = N - L := by
  unfold usub64
  have h2 : (2 : Nat) ^ 64 = 18446744073709551616 := by norm_num
  rw [h2] at hN ⊢
  omega

theorem mem_scanAllSpec (mem : Nat → Nat) (base N : Nat) (pat : List Nat) (a : Nat) :
    a ∈ scanAllSpec mem base N pat
      ↔ ∃ o, o ≤ N - pat.length ∧ specMatchProp mem pat (base + o) ∧ a = base + o := by
  unfold scanAllSpec
  simp only [List.mem_map, List.mem_filter, List.mem_range, Nat.lt_succ_iff,
    decide_eq_true_eq]
  constructor
  · rintro ⟨o, ⟨ho, hm⟩, rfl⟩
    exact ⟨o, ho, hm, rfl⟩
  · rintro ⟨o, ho, hm, rfl⟩
    exact ⟨o, ⟨ho, hm⟩, rfl⟩

theorem scanAllSpec_pairwise (mem : Nat → Nat) (base N : Nat) (pat : List Nat) :
    (scanAllSpec mem base N pat).Pairwise (· < ·) := by
  unfold scanAllSpec
  refine List.Pairwise.map _ (fun a b h => Nat.add_lt_add_left h base) ?_
  exact (List.pairwise_lt_range _).sublist (List.filter_sublist _)

theorem patchBytesAux_some (l : List (List Char))
    (h : ∀ t ∈ l, (stoulHex t).isSome = true) :
    patchBytesAux l = some (l.map (fun t => (stoulHex t).getD 0 % 256)) := by
  induction l with
  | nil => rfl
  | cons t rest ih =>
    have ht := h t (List.mem_cons_self t rest)
    rcases Option.isSome_iff_exists.mp ht with ⟨v, hv⟩
    rw [List.map_cons]
    simp [patchBytesAux, hv, ih (fun u hu => h u (List.mem_cons_of_mem t hu))]

theorem mainTrace_tag (yml : YmlT) (module : ModuleInfo) (mem : Nat → Nat)
    (imgSize : Nat) (k : Nat) (hk : k < (mainTrace yml module mem imgSize).length) :
    ((mainTrace yml module mem imgSize).get ⟨k, hk⟩).1 = k := by
  have hk3 : k < 3 := hk
  interval_cases k <;> rfl

theorem mem_patternScan_of (mem : Nat → Nat) (base N : Nat) (sig : List Char)
    (i a : Nat) (hi : i < usub64 N (patternToByte sig).length + 1)
    (hm : matchAt mem (patternToByte sig) (base + i) = true)
    (ha : a = base + i) :
    a ∈ patternScan mem base N sig [] := by
  simp only [patternScan_eq, List.nil_append]
  exact List.mem_map.mpr ⟨i, List.mem_filter.mpr ⟨List.mem_range.mpr hi, hm⟩, ha.symm⟩

/-! ## Claim theorems -/

/-- Claim C1, counterexample: the claim's matching rule requires every
non-wildcard position to equal the image byte.  The token `FF` is a
concrete byte token (not the wildcard `??`), yet `patternScan` encodes
it as the wildcard marker 255, so scanning the one-byte image `[0x00]`
for the pattern `"FF"` returns a match at offset 0 although the image
byte 0 differs from the pattern byte 0xFF — the claim as stated is
false. -/
theorem scan_C1_counterexample :
    patternToByte ("FF".toList) = [255]
    ∧ ("FF".toList) ≠ wildcardTok
    ∧ patternScan (fun _ => 0) 0 1 ("FF".toList) [] = [0]
    ∧ (fun _ => (0 : Nat)) 0 ≠ 255 := by
  decide

/-- Claim C1 (amended): for every memory image of size `N ≥ L`
(`N < 2 ^ 64`, the `size_t` range), `patternScan` appends to the
caller's vector exactly the absolute addresses `base + o` of the offsets
`o ∈ [0, N − L]` at which every position `i` satisfies "pattern byte is
255 (the wildcard marker — produced both by `??` and by a literal `FF`
token) or image byte equals pattern byte", in ascending address order,
and the appended part is empty iff no such offset exists. -/
theorem scan_C1_amended (mem : Nat → Nat) (base N : Nat) (sig : List Char)
    (prior : List Nat)
    (hL : (patternToByte sig).length ≤ N) (hN : N < 2 ^ 64) :
    patternScan mem base N sig prior
        = prior ++ scanAllSpec mem base N (patternToByte sig)
      ∧ (∀ a, a ∈ scanAllSpec mem base N (patternToByte sig)
          ↔ ∃ o, o ≤ N - (patternToByte sig).length
              ∧ specMatchProp mem (patternToByte sig) (base + o) ∧ a = base + o)
      ∧ (scanAllSpec mem base N (patternToByte sig)).Pairwise (· < ·)
      ∧ (scanAllSpec mem base N (patternToByte sig) = []
          ↔ ∀ o ≤ N - (patternToByte sig).length,
              ¬ specMatchProp mem (patternToByte sig) (base + o)) := by
  refine ⟨?_, fun a => mem_scanAllSpec mem base N (patternToByte sig) a,
    scanAllSpec_pairwise mem base N (patternToByte sig), ?_⟩
  · rw [patternScan_eq, usub64_eq_sub _ _ hL hN]
    unfold scanAllSpec
    congr 1
    congr 1
    apply List.filter_congr
    intro o _
    by_cases hsp : specMatchProp mem (patternToByte sig) (base + o)
    · rw [(matchAt_iff mem _ _).mpr hsp, decide_eq_true hsp]
    · have h1 : matchAt mem (patternToByte sig) (base + o) = false := by
        cases h : matchAt mem (patternToByte sig) (base + o)
        · rfl
        · exact absurd ((matchAt_iff mem _ _).mp h) hsp
      rw [h1, decide_eq_false hsp]
  · rw [List.eq_nil_iff_forall_not_mem]
    constructor
    · intro h o ho hsp
      exact h (base + o) ((mem_scanAllSpec _ _ _ _ _).mpr ⟨o, ho, hsp, rfl⟩)
    · intro h a ha
      rcases (mem_scanAllSpec _ _ _ _ _).mp ha with ⟨o, ho, hsp, rfl⟩
      exact h o ho hsp

/-- Witness for `scan_C1_amended` at a concrete instance: the all-zero
image of size 2 scanned for the single-byte pattern `"00"` with one
prior vector element. -/
theorem scan_C1_amended_witness :
    ((patternToByte ("00".toList)).length ≤ 2 ∧ 2 < 2 ^ 64)
    ∧ (patternScan (fun _ => 0) 0 2 ("00".toList) [5]
          = [5] ++ scanAllSpec (fun _ => 0) 0 2 (patternToByte ("00".toList))
        ∧ (∀ a, a ∈ scanAllSpec (fun _ => 0) 0 2 (patternToByte ("00".toList))
            ↔ ∃ o, o ≤ 2 - (patternToByte ("00".toList)).length
                ∧ specMatchProp (fun _ => 0) (patternToByte ("00".toList)) (0 + o)
                ∧ a = 0 + o)
        ∧ (scanAllSpec (fun _ => 0) 0 2 (patternToByte ("00".toList))).Pairwise (· < ·)
        ∧ (scanAllSpec (fun _ => 0) 0 2 (patternToByte ("00".toList)) = []
            ↔ ∀ o ≤ 2 - (patternToByte ("00".toList)).length,
                ¬ specMatchProp (fun _ => 0) (patternToByte ("00".toList)) (0 + o))) :=
  ⟨⟨by decide, by norm_num⟩,
   scan_C1_amended (fun _ => 0) 0 2 ("00".toList) [5] (by decide) (by norm_num)⟩

/-- Claim C2, code bug: for a pattern (here `"?? ??"`, length 2) longer
than the image (size 1), the claim — and §4.2 of the spec — demand an
empty result with no loop iteration and no out-of-bounds access.  The
code instead computes the loop bound `sizeOfImage - patternSize` in
unsigned arithmetic, which underflows to `2 ^ 64 − 1`, so the candidate
loop iterates over (essentially) the whole address space, reads far
beyond the image, and even returns matches outside it: address 5 lies
beyond the 1-byte image yet is in the returned vector. -/
theorem scan_C2_bug :
    usub64 1 (patternToByte ("?? ??".toList)).length = 2 ^ 64 - 1
    ∧ 5 ∈ patternScan (fun _ => 0) 0 1 ("?? ??".toList) []
    ∧ 1 < 5 := by
  refine ⟨by decide, ?_, by norm_num⟩
  exact mem_patternScan_of (fun _ => 0) 0 1 ("?? ??".toList) 5 5 (by decide) (by decide)
    (by norm_num)

/-- Claim C9: `patternScan` never clears the caller's `addresses`
vector: the result is exactly the prior contents followed by the newly
found matches (the part appended for an empty prior vector), and the
appended matches are in strictly ascending address order. -/
theorem scan_C9_append (mem : Nat → Nat) (base N : Nat) (sig : List Char)
    (prior : List Nat) :
    patternScan mem base N sig prior = prior ++ patternScan mem base N sig []
    ∧ (patternScan mem base N sig []).Pairwise (· < ·) := by
  constructor
  · rw [patternScan_eq, patternScan_eq]
    simp
  · rw [patternScan_eq]
    simp only [List.nil_append]
    exact List.Pairwise.map _ (fun a b h => Nat.add_lt_add_left h base)
      ((List.pairwise_lt_range _).sublist (List.filter_sublist _))

/-- Claim C3, counterexample: in an environment where the protection
change cannot be obtained (`vpAlwaysFail`), `patch` neither fails nor
refrains from writing — the byte 0xAB is still copied to the target
address (which previously held 0).  The claim's "no memory write is
attempted" is false, and no `ProtectionChangeError` exists: the code
never inspects `VirtualProtect`'s return value. -/
theorem patch_C3_counterexample :
    vpAlwaysFail.vpOk 0 1 = false
    ∧ st0.mem 0 = 0
    ∧ (patch vpAlwaysFail st0 0 ("AB".toList) 99).map (fun s => s.mem 0) = some 0xAB := by
  decide

/-- Claim C3 (amended): `patch` copies the pattern bytes verbatim into
`[address, address + len)` unconditionally — even when the initial
protection change fails, since its result is never checked and no error
is raised — leaving all other bytes unchanged; when the protection
change succeeds, the protection value that was in effect before the call
(that of the first byte) is restored over the range afterwards and
protections outside the range are unchanged. -/
theorem patch_C3_amended (os : OSEnv) (s : MemProt) (address : Nat)
    (pattern : List Char) (uninit : Nat) (bytes : List Nat)
    (hb : patchBytes pattern = some bytes) :
    ∃ s', patch os s address pattern uninit = some s'
      ∧ (∀ a, address ≤ a → a < address + bytes.length →
          s'.mem a = bytes.getD (a - address) 0)
      ∧ (∀ a, a < address ∨ address + bytes.length ≤ a → s'.mem a = s.mem a)
      ∧ (os.vpOk address bytes.length = true →
          (∀ a, address ≤ a → a < address + bytes.length → s'.prot a = s.prot address)
          ∧ (∀ a, a < address ∨ address + bytes.length ≤ a → s'.prot a = s.prot a)) := by
  unfold patch
  rw [hb]
  by_cases hok : os.vpOk address bytes.length = true
  · refine ⟨⟨writeBytes s.mem address bytes,
      setProt (setProt s.prot address bytes.length PAGE_EXECUTE_READWRITE) address
        bytes.length (s.prot address)⟩, ?_, ?_, ?_, ?_⟩
    · simp [virtualProtect, hok]
    · intro a h1 h2
      simp [writeBytes, h1, h2]
    · intro a h
      have hn : ¬(address ≤ a ∧ a < address + bytes.length) := by omega
      simp [writeBytes, hn]
    · intro _
      constructor
      · intro a h1 h2
        simp [setProt, h1, h2]
      · intro a h
        have hn : ¬(address ≤ a ∧ a < address + bytes.length) := by omega
        simp [setProt, hn]
  · refine ⟨⟨writeBytes s.mem address bytes, s.prot⟩, ?_, ?_, ?_, ?_⟩
    · simp [virtualProtect, hok]
    · intro a h1 h2
      simp [writeBytes, h1, h2]
    · intro a h
      have hn : ¬(address ≤ a ∧ a < address + bytes.length) := by omega
      simp [writeBytes, hn]
    · intro hcon
      exact absurd hcon hok

/-- Witness for `patch_C3_amended`: patching two bytes `"AB CD"` at
address 3 of the all-zero state in an always-succeeding environment. -/
theorem patch_C3_amended_witness :
    patchBytes ("AB CD".toList) = some [0xAB, 0xCD]
    ∧ (∃ s', patch vpAlwaysOk st0 3 ("AB CD".toList) 99 = some s'
        ∧ (∀ a, 3 ≤ a → a < 3 + [0xAB, 0xCD].length →
            s'.mem a = [0xAB, 0xCD].getD (a - 3) 0)
        ∧ (∀ a, a < 3 ∨ 3 + [0xAB, 0xCD].length ≤ a → s'.mem a = st0.mem a)
        ∧ (vpAlwaysOk.vpOk 3 [0xAB, 0xCD].length = true →
            (∀ a, 3 ≤ a → a < 3 + [0xAB, 0xCD].length → s'.prot a = st0.prot 3)
            ∧ (∀ a, a < 3 ∨ 3 + [0xAB, 0xCD].length ≤ a → s'.prot a = st0.prot a))) :=
  ⟨by decide,
   patch_C3_amended vpAlwaysOk st0 3 ("AB CD".toList) 99 [0xAB, 0xCD] (by decide)⟩

/-- Claim C4, counterexample: decoding never fails in the code.  The
empty text decodes (without any `MalformedPatternError`) to the empty
pattern, the malformed token `GG` decodes to the byte 0 instead of being
rejected, and the length-0 pattern IS scanned as if every offset
matched: scanning a 2-byte image with it returns every offset 0, 1, 2
(including one past the end). -/
theorem decode_C4_counterexample :
    patternToByte [] = []
    ∧ patternToByte ("GG".toList) = [0]
    ∧ patternScan (fun _ => 0) 0 2 [] [] = [0, 1, 2] := by
  decide

/-- Claim C4 (amended): decoding is total and never signals an error —
`??` becomes the wildcard marker 0xFF, every other token gets its
stream-hex-parse value (0 on parse failure) truncated to the low 8 bits;
in particular the empty text yields the length-0 pattern, which
`patternScan` then treats as matching at every offset `0 .. N` of the
image (appended after the caller's prior vector contents). -/
theorem decode_C4_amended (mem : Nat → Nat) (base N : Nat) (prior : List Nat)
    (hN : N < 2 ^ 64) :
    patternToByte [] = []
    ∧ patternScan mem base N [] prior
        = prior ++ (List.range (N + 1)).map (fun o => base + o) := by
  refine ⟨rfl, ?_⟩
  simp only [patternScan_eq]
  have h0 : usub64 N (patternToByte ([] : List Char)).length = N := by
    simpa using usub64_eq_sub N 0 (Nat.zero_le N) hN
  rw [h0]
  have h1 : (fun i => matchAt mem (patternToByte ([] : List Char)) (base + i))
      = (fun _ => true) := rfl
  rw [h1, List.filter_true]

/-- Witness for `decode_C4_amended`: a 2-byte image scanned with the
empty pattern matches at offsets 0, 1 and 2. -/
theorem decode_C4_amended_witness :
    (2 : Nat) < 2 ^ 64
    ∧ (patternToByte [] = []
      ∧ patternScan (fun _ => 0) 4 2 [] [9]
          = [9] ++ (List.range (2 + 1)).map (fun o => 4 + o)) :=
  ⟨by norm_num, decode_C4_amended (fun _ => 0) 4 2 [9] (by norm_num)⟩

/-- Claim C6: with `masterEnable = false` every fix's effective enable
flag is false (`forceKeepAspect` uses `masterEnable` directly, the other
two AND it with their per-fix flag), so `injectHook` takes its disabled
branch for all three fixes: no scan is performed and no hook is
installed, regardless of the per-fix enable flags. -/
theorem fixes_C6 (yml : YmlT) (module : ModuleInfo) (mem : Nat → Nat) (imgSize : Nat)
    (hm : yml.masterEnable = false) :
    forceKeepAspect yml module mem imgSize
        = { scanPerformed := false, installedAt := none, foundRelLogged := none }
    ∧ texturesFix yml module mem imgSize
        = { scanPerformed := false, installedAt := none, foundRelLogged := none }
    ∧ tileRenderFix yml module mem imgSize
        = { scanPerformed := false, installedAt := none, foundRelLogged := none } := by
  unfold forceKeepAspect texturesFix tileRenderFix injectHook
  rw [hm]
  simp

/-- Witness for `fixes_C6`: master switch off while both per-fix flags
are on. -/
theorem fixes_C6_witness :
    (YmlT.mk false ⟨⟨true⟩, ⟨true⟩⟩).masterEnable = false
    ∧ (forceKeepAspect ⟨false, ⟨⟨true⟩, ⟨true⟩⟩⟩ ⟨0x400000, [], 1⟩ (fun _ => 0) 16
        = { scanPerformed := false, installedAt := none, foundRelLogged := none }
      ∧ texturesFix ⟨false, ⟨⟨true⟩, ⟨true⟩⟩⟩ ⟨0x400000, [], 1⟩ (fun _ => 0) 16
        = { scanPerformed := false, installedAt := none, foundRelLogged := none }
      ∧ tileRenderFix ⟨false, ⟨⟨true⟩, ⟨true⟩⟩⟩ ⟨0x400000, [], 1⟩ (fun _ => 0) 16
        = { scanPerformed := false, installedAt := none, foundRelLogged := none }) :=
  ⟨rfl, fixes_C6 ⟨false, ⟨⟨true⟩, ⟨true⟩⟩⟩ ⟨0x400000, [], 1⟩ (fun _ => 0) 16 rfl⟩

/-- Claim C7: for an enabled fix, when the scan reports a hit at
`absAddr` (nonzero), `injectHook` installs the mid-hook at exactly
`absAddr + hook.offset` and logs the module-base-relative offset
`absAddr - module.address`; when the scan reports no match, no
hook-install happens and the miss is only logged. -/
theorem injectHook_C7 (module : ModuleInfo) (hook : SignatureHook) (mem : Nat → Nat)
    (imgSize : Nat) (pat : List (Option Nat))
    (hd : specDecode hook.signature = some pat) :
    (scanFirst mem module.address imgSize pat ≠ 0 →
      injectHook true module hook mem imgSize
        = { scanPerformed := true
            installedAt := some (scanFirst mem module.address imgSize pat + hook.offset)
            foundRelLogged :=
              some (usub64 (scanFirst mem module.address imgSize pat) module.address) })
    ∧ (scanFirst mem module.address imgSize pat = 0 →
      injectHook true module hook mem imgSize
        = { scanPerformed := true, installedAt := none, foundRelLogged := none }) := by
  constructor
  · intro h
    simp [injectHook, hd, h]
  · intro h
    simp [injectHook, hd, h]

/-- Witness for `injectHook_C7`: a 1-byte all-zero image at base 4,
signature `"00"` with hook offset 2 — the hit is at 4, the hook lands at
6, and the logged relative offset is 0. -/
theorem injectHook_C7_witness :
    injectHook true ⟨4, [], 1⟩ ⟨("00".toList), 2⟩ (fun _ => 0) 1
      = { scanPerformed := true, installedAt := some 6, foundRelLogged := some 0 } :=
  (injectHook_C7 ⟨4, [], 1⟩ ⟨("00".toList), 2⟩ (fun _ => 0) 1 [some 0] (by decide)).1
    (by decide)

/-- Claim C8: in every run of the initialization entry point `Main`, the
fixes are applied strictly sequentially in the declared order — any
trace entry of an earlier-ordered fix (aspect ratio = 0, textures = 1,
render distance = 2) occurs at a strictly earlier position than any
entry of a later-ordered fix. -/
theorem main_C8 (yml : YmlT) (module : ModuleInfo) (mem : Nat → Nat) (imgSize : Nat)
    (i j : Nat) (hi : i < (mainTrace yml module mem imgSize).length)
    (hj : j < (mainTrace yml module mem imgSize).length)
    (hij : ((mainTrace yml module mem imgSize).get ⟨i, hi⟩).1
         < ((mainTrace yml module mem imgSize).get ⟨j, hj⟩).1) :
    i < j := by
  rw [mainTrace_tag yml module mem imgSize i hi,
    mainTrace_tag yml module mem imgSize j hj] at hij
  exact hij

/-- Witness for `main_C8`: the aspect-ratio fix entry (tag 0, position
0) precedes the textures fix entry (tag 1, position 1). -/
theorem main_C8_witness :
    ((0 : Nat) < (mainTrace ⟨true, ⟨⟨true⟩, ⟨true⟩⟩⟩ ⟨8, [], 1⟩ (fun _ => 0) 0).length)
    ∧ ((1 : Nat) < (mainTrace ⟨true, ⟨⟨true⟩, ⟨true⟩⟩⟩ ⟨8, [], 1⟩ (fun _ => 0) 0).length)
    ∧ (0 : Nat) < 1 :=
  ⟨by decide, by decide,
   main_C8 ⟨true, ⟨⟨true⟩, ⟨true⟩⟩⟩ ⟨8, [], 1⟩ (fun _ => 0) 0 0 1 (by decide) (by decide)
     (by decide)⟩

/-- Claim C10, counterexample: the hex token `123456789` is a single
whitespace-separated token of more than two hex digits, yet `patch`'s
tokenizer REJECTS it rather than accepting it silently: its parse value
0x123456789 exceeds the 32-bit `unsigned long` range, so `std::stoul`
throws `std::out_of_range` and no byte list is produced. -/
theorem patch_C10_counterexample :
    (tokenize ("123456789".toList)).length = 1
    ∧ 2 < ("123456789".toList).length
    ∧ (∀ c ∈ ("123456789".toList), (hexDigit c).isSome = true)
    ∧ patchBytes ("123456789".toList) = none := by
  decide

/-- Claim C10 (amended): for every whitespace-separated token whose
`std::stoul` base-16 parse succeeds (it starts with a hex digit and its
parse value fits the 32-bit `unsigned long` range), the byte produced
for `patch` is the parse value reduced modulo 256 — so tokens of three
to eight hex digits are accepted with silent truncation to the low
8 bits; a token whose value overflows `unsigned long` makes `std::stoul`
throw instead, aborting the patch. -/
theorem patch_C10_amended (text : List Char)
    (h : ∀ t ∈ tokenize text, (stoulHex t).isSome = true) :
    patchBytes text
      = some ((tokenize text).map (fun t => (stoulHex t).getD 0 % 256)) := by
  unfold patchBytes
  exact patchBytesAux_some (tokenize text) h

/-- Witness for `patch_C10_amended` on `"123 4567"`: both tokens have
more than two hex digits and are truncated modulo 256 (to 0x23 and
0x67). -/
theorem patch_C10_amended_witness :
    (∀ t ∈ tokenize ("123 4567".toList), (stoulHex t).isSome = true)
    ∧ patchBytes ("123 4567".toList)
        = some ((tokenize ("123 4567".toList)).map (fun t => (stoulHex t).getD 0 % 256)) :=
  ⟨by decide, patch_C10_amended ("123 4567".toList) (by decide)⟩

set_option maxRecDepth 10000 in
theorem hex2_ok : ∀ b : Fin 256,
    parseHexU32 (hex2 b.val) % 256 = b.val
    ∧ hex2 b.val ≠ wildcardTok
    ∧ hex2 b.val ≠ []
    ∧ (∀ c ∈ hex2 b.val, isSpace c = false)
    ∧ (hex2 b.val).length = 2
    ∧ (∀ c ∈ hex2 b.val, c ∈ ("0123456789ABCDEF".toList)) := by
  decide

theorem tokenizeAux_nospace (t : List Char) :
    ∀ (rest cur : List Char), (∀ c ∈ t, isSpace c = false) →
      tokenizeAux (t ++ rest) cur = tokenizeAux rest (t.reverse ++ cur) := by
  induction t with
  | nil => intro rest cur _; simp
  | cons c t ih =>
    intro rest cur h
    have hc : isSpace c = false := h c (List.mem_cons_self c t)
    simp only [List.cons_append, tokenizeAux, hc, Bool.false_eq_true, if_false,
      List.append_eq]
    rw [ih rest (c :: cur) (fun d hd => h d (List.mem_cons_of_mem c hd))]
    simp [List.append_assoc]

theorem tokenize_single (t : List Char) (ht : t ≠ [])
    (hns : ∀ c ∈ t, isSpace c = false) :
    tokenize t = [t] := by
  unfold tokenize
  have h1 := tokenizeAux_nospace t [] [] hns
  simp only [List.append_nil] at h1
  rw [h1]
  have h3 : t.reverse ≠ [] := by simpa using ht
  simp [tokenizeAux, h3]

theorem tokenize_token_sep (t rest : List Char) (ht : t ≠ [])
    (hns : ∀ c ∈ t, isSpace c = false) :
    tokenize (t ++ ' ' :: rest) = t :: tokenize rest := by
  unfold tokenize
  rw [tokenizeAux_nospace t (' ' :: rest) [] hns]
  have h3 : t.reverse ≠ [] := by simpa using ht
  simp [tokenizeAux, h3, isSpace]

theorem tokenize_sepJoin : ∀ (toks : List (List Char)),
    (∀ t ∈ toks, t ≠ [] ∧ ∀ c ∈ t, isSpace c = false) →
    tokenize (sepJoin toks) = toks
  | [], _ => rfl
  | [t], h =>
    tokenize_single t (h t (List.mem_cons_self t [])).1 (h t (List.mem_cons_self t [])).2
  | t :: t2 :: rest, h => by
    have hsj : sepJoin (t :: t2 :: rest) = t ++ ' ' :: sepJoin (t2 :: rest) := rfl
    rw [hsj, tokenize_token_sep t _ (h t (List.mem_cons_self t _)).1
      (h t (List.mem_cons_self t _)).2]
    rw [tokenize_sepJoin (t2 :: rest) (fun u hu => h u (List.mem_cons_of_mem t hu))]

theorem foldl_hexAppend : ∀ (bs : List Nat) (acc : List Char),
    bs.foldl (fun acc b => acc ++ hex2 b ++ [' ']) acc
      = acc ++ (bs.map (fun b => hex2 b ++ [' '])).flatten
  | [], acc => by simp
  | b :: rest, acc => by
    simp only [List.foldl_cons, List.map_cons, List.flatten_cons]
    rw [foldl_hexAppend rest (acc ++ hex2 b ++ [' '])]
    simp [List.append_assoc]

theorem flattenTok_ne_nil (b : Nat) (rest : List Nat) :
    ((b :: rest).map (fun x => hex2 x ++ [' '])).flatten ≠ [] := by
  simp [hex2]

theorem flatten_dropLast_sepJoin : ∀ (bs : List Nat), bs ≠ [] →
    ((bs.map (fun b => hex2 b ++ [' '])).flatten).dropLast = sepJoin (bs.map hex2)
  | [b], _ => by
    simp [sepJoin, List.dropLast_concat]
  | b :: b2 :: rest, _ => by
    have hne := flattenTok_ne_nil b2 rest
    simp only [List.map_cons, List.flatten_cons] at hne ⊢
    rw [List.dropLast_append_of_ne_nil _ hne]
    have hrec := flatten_dropLast_sepJoin (b2 :: rest) (List.cons_ne_nil b2 rest)
    simp only [List.map_cons, List.flatten_cons] at hrec
    rw [hrec]
    simp [sepJoin, List.append_assoc]

theorem bytesToString_eq_sepJoin : ∀ bs : List Nat,
    bytesToString bs = sepJoin (bs.map hex2)
  | [] => rfl
  | b :: rest => by
    simp only [bytesToString]
    rw [foldl_hexAppend]
    simp only [List.nil_append]
    rw [if_neg (flattenTok_ne_nil b rest)]
    exact flatten_dropLast_sepJoin (b :: rest) (List.cons_ne_nil b rest)

theorem patternToByte_sepJoin_hex2 (bs : List Nat) (hb : ∀ b ∈ bs, b < 256) :
    patternToByte (sepJoin (bs.map hex2)) = bs := by
  unfold patternToByte
  rw [tokenize_sepJoin (bs.map hex2) ?_]
  · rw [List.map_map]
    have hpt : ∀ b ∈ bs,
        ((fun t => if t = wildcardTok then 0xFF else parseHexU32 t % 256) ∘ hex2) b
          = id b := by
      intro b hbm
      have h := hex2_ok ⟨b, hb b hbm⟩
      show (if hex2 b = wildcardTok then 0xFF else parseHexU32 (hex2 b) % 256) = b
      rw [if_neg h.2.1]
      exact h.1
    rw [List.map_congr_left hpt, List.map_id]
  · intro u hu
    rcases List.mem_map.mp hu with ⟨b, hbm, rfl⟩
    have h := hex2_ok ⟨b, hb b hbm⟩
    exact ⟨h.2.2.1, h.2.2.2.1⟩

/-- Claim C5: `bytesToString` produces one uppercase two-digit hex token
per byte in memory order, space-separated with the trailing separator
trimmed (empty input gives the empty string), and running the scanner's
tokenizer (`patternToByte`) on that string reproduces the original byte
sequence exactly. -/
theorem codec_C5 (bs : List Nat) (hb : ∀ b ∈ bs, b < 256) :
    bytesToString bs = sepJoin (bs.map hex2)
    ∧ (∀ b ∈ bs, (hex2 b).length = 2 ∧ ∀ c ∈ hex2 b, c ∈ ("0123456789ABCDEF".toList))
    ∧ bytesToString [] = []
    ∧ patternToByte (bytesToString bs) = bs := by
  refine ⟨bytesToString_eq_sepJoin bs, ?_, rfl, ?_⟩
  · intro b hbm
    have h := hex2_ok ⟨b, hb b hbm⟩
    exact ⟨h.2.2.2.2.1, h.2.2.2.2.2⟩
  · rw [bytesToString_eq_sepJoin bs]
    exact patternToByte_sepJoin_hex2 bs hb

/-- Witness for `codec_C5`: the spec's own example, the 4-byte
little-endian representation of 0x12345678, which encodes to
`"78 56 34 12"` and decodes back to itself. -/
theorem codec_C5_witness :
    (∀ b ∈ [0x78, 0x56, 0x34, 0x12], b < 256)
    ∧ (bytesToString [0x78, 0x56, 0x34, 0x12]
          = sepJoin ([0x78, 0x56, 0x34, 0x12].map hex2)
      ∧ (∀ b ∈ [0x78, 0x56, 0x34, 0x12],
          (hex2 b).length = 2 ∧ ∀ c ∈ hex2 b, c ∈ ("0123456789ABCDEF".toList))
      ∧ bytesToString [] = []
      ∧ patternToByte (bytesToString [0x78, 0x56, 0x34, 0x12])
          = [0x78, 0x56, 0x34, 0x12]) :=
  ⟨by decide, codec_C5 [0x78, 0x56, 0x34, 0x12] (by decide)⟩

end TrailsFCFix
